import Mathlib

/-!
Shallow embedding of the RepliCode image-transfer servers
(`src/wasm_programs/image_server.c` and `src/test/native_image_server.c`).

Bytes are modelled as `Nat`, the wire as a byte list together with a list of
per-call transport delivery caps (so short reads/writes are expressible), and
the filesystem as an association list from filename byte strings to contents.
Each Lean definition mirrors the corresponding C code; divergences between the
two server variants (filename trimming, socket closing) are kept apart in
`handleClientW` (wasm) and `handleClientN` (native).
-/

namespace ImageServer

/-- A filesystem: association list from filename (byte list) to file contents. -/
abbrev Fs := List (List Nat × List Nat)

/-- Lookup of a filename in the filesystem (first binding wins, as `open` sees
the most recently written file). -/
def lookupFs : Fs → List Nat → Option (List Nat)
  | [], _ => none
  | (k, v) :: t, name => if k = name then some v else lookupFs t name

/-- Inbound side of a connection: the bytes the peer will deliver, plus a list
of per-`recv`-call delivery caps. An empty cap list means every later call
delivers as much as requested (up to the stream); a cap of `0` models a
transport error / disconnect signalled to that call. -/
structure NetIn where
  stream : List Nat
  caps : List Nat
deriving DecidableEq

/-- One `recv` call requesting `n` bytes: delivers
`min (min n cap) stream.length` bytes, mirroring that POSIX `recv`/WASI
`sock_recv` may return fewer bytes than requested and returns 0 at EOF. -/
def recvC (net : NetIn) (n : Nat) : Nat × List Nat × NetIn :=
  let t := match net.caps with
    | [] => n
    | c :: _ => min n c
  let got := min t net.stream.length
  (got, net.stream.take got, ⟨net.stream.drop got, net.caps.tail⟩)

/-- One `send`/`write` call offering `payload`: the transport (or file) accepts
a prefix bounded by the head cap; an empty cap list accepts everything. -/
def sendC (scaps : List Nat) (payload : List Nat) : List Nat × List Nat :=
  match scaps with
  | [] => (payload, [])
  | c :: t => (payload.take c, t)

/-- `"SEND"` as bytes. -/
def SENDtok : List Nat := [83, 69, 78, 68]

/-- `"GET"` as bytes. -/
def GETtok : List Nat := [71, 69, 84]

/-- `"OK\n"`, the 3-byte acknowledgment. -/
def okBytes : List Nat := [79, 75, 10]

/-- `"ERROR: File not found\n"` (22 bytes), sent by both variants when a GET
`open` fails. -/
def errNotFound : List Nat :=
  [69, 82, 82, 79, 82, 58, 32, 70, 105, 108, 101, 32, 110, 111, 116, 32,
   102, 111, 117, 110, 100, 10]

/-- `"ERROR: Unknown command\n"` (23 bytes), sent on an unrecognized verb. -/
def errUnknown : List Nat :=
  [69, 82, 82, 79, 82, 58, 32, 85, 110, 107, 110, 111, 119, 110, 32,
   99, 111, 109, 109, 97, 110, 100, 10]

/-- The command-line loop of `handle_client`: reads one byte at a time until a
newline arrives or `MAX_CMD_SIZE - 1 = 1023` bytes are buffered; a failed read
(`ret != 0 || bytes_received == 0`) aborts the session (`none`). The fuel
argument is the residual capacity `1023 - total_received` of the C loop. -/
def readLineAux : Nat → List Nat → NetIn → Option (List Nat × NetIn)
  | 0, acc, net => some (acc, net)
  | fuel + 1, acc, net =>
    let r := recvC net 1
    if r.1 = 0 then none
    else
      let acc' := acc ++ r.2.1
      if r.2.1 = [10] then some (acc', r.2.2)
      else readLineAux fuel acc' r.2.2

/-- Read the command line (up to 1023 bytes) from the connection. -/
def readLine (net : NetIn) : Option (List Nat × NetIn) :=
  readLineAux 1023 [] net

/-- First `strtok(cmd_buf, " ")` token: skip leading spaces, take until the
next space; the empty list plays the role of strtok's NULL. -/
def tok1 (s : List Nat) : List Nat :=
  ((s.dropWhile (· = 32)).takeWhile (· ≠ 32))

/-- What remains after the first token. -/
def rest1 (s : List Nat) : List Nat :=
  ((s.dropWhile (· = 32)).dropWhile (· ≠ 32))

/-- Second `strtok(NULL, " ")` token (the filename), `none` when strtok
returns NULL (nothing but delimiters remains). -/
def tok2 (s : List Nat) : Option (List Nat) :=
  let t := tok1 (rest1 s)
  if t = [] then none else some t

/-- Is a byte one of `' '`, `'\n'`, `'\r'` (the wasm `trim_end` set)? -/
def isWspW (b : Nat) : Bool := b = 32 || b = 10 || b = 13

/-- Is a byte one of `' '`, `'\n'`, `'\r'`, `'\t'` (the native trim set)? -/
def isWspN (b : Nat) : Bool := b = 32 || b = 10 || b = 13 || b = 9

/-- The wasm server's `trim_end`: strips trailing whitespace only. -/
def trimEndW (s : List Nat) : List Nat :=
  (s.reverse.dropWhile isWspW).reverse

/-- The native server's `trim_end`: strips trailing whitespace, then leading
whitespace. -/
def trimN (s : List Nat) : List Nat :=
  ((s.reverse.dropWhile isWspN).reverse).dropWhile isWspN

/-- Big-endian decoding of the 4 header bytes, as done by `ntohl` on the
received 4-byte buffer in both variants. -/
def be32dec (bs : List Nat) : Nat :=
  match bs with
  | [a, b, c, d] => a * 16777216 + b * 65536 + c * 256 + d
  | _ => 0

/-- Big-endian encoding of a length `L < 2^32`, as built byte-by-byte with
shifts and `& 0xFF` in the GET branch. -/
def be32enc (L : Nat) : List Nat :=
  [L / 16777216 % 256, L / 65536 % 256, L / 256 % 256, L % 256]

/-- The SEND file-size read (lines 111-120 wasm / 119-126 native): a single
`recv` of 4 bytes; the session aborts (`none`) unless that one call returns
exactly 4 bytes. -/
def readSize (net : NetIn) : Option (Nat × NetIn) :=
  let r := recvC net 4
  if r.1 = 4 then some (be32dec r.2.1, r.2.2) else none

/-- The state of a copy loop at the top of one iteration, plus what the
iteration's read requested and obtained: `rem`/`moved` are the C counters
`remaining`/`total_written` (or `total_sent`), `toRead` the requested size,
`got` the bytes the iteration actually moved. -/
structure IterRec where
  rem : Nat
  moved : Nat
  toRead : Nat
  got : Nat
deriving DecidableEq

/-- Result of the SEND body-receive loop. -/
structure RecvRes where
  iters : List IterRec
  moved : Nat
  ok : Bool
  data : List Nat
  net : NetIn
  fcaps : List Nat
deriving DecidableEq

/-- The SEND receive/write loop (`while (remaining > 0)`), with `fcaps` the
per-call acceptance caps of the file `write`. Each iteration requests
`min remaining 4096` bytes; a read returning 0 aborts; the chunk is written by
a single `write` call and a short write aborts with only the accepted prefix
in the file. `fuel` bounds the iteration count; the loop is entered with
`fuel = remaining`, which never binds since every surviving iteration moves at
least one byte. -/
def recvLoopAux : Nat → Nat → Nat → NetIn → List Nat → RecvRes
  | 0, rem, moved, net, fcaps => ⟨[], moved, decide (rem = 0), [], net, fcaps⟩
  | fuel + 1, rem, moved, net, fcaps =>
    if rem = 0 then ⟨[], moved, true, [], net, fcaps⟩
    else
      let toRead := min rem 4096
      let r := recvC net toRead
      let got := r.1
      if got = 0 then ⟨[⟨rem, moved, toRead, 0⟩], moved, false, [], r.2.2, fcaps⟩
      else
        let w := sendC fcaps r.2.1
        if w.1.length = got then
          let res := recvLoopAux fuel (rem - got) (moved + got) r.2.2 w.2
          ⟨⟨rem, moved, toRead, got⟩ :: res.iters, res.moved, res.ok,
           r.2.1 ++ res.data, res.net, res.fcaps⟩
        else
          ⟨[⟨rem, moved, toRead, got⟩], moved, false, w.1, r.2.2, w.2⟩

/-- Result of the outgoing connection half of a session. -/
structure SessionRes where
  out : List Nat
  fs : Fs
  closed : Bool
deriving DecidableEq

/-- The SEND branch after the filename and declared length `L` are known:
`open(filename, O_WRONLY|O_CREAT|O_TRUNC)` (creation modelled as succeeding;
failure is environmental), the receive loop, and on completion the `"OK\n"`
acknowledgment followed by shutdown/close. On a loop error the partial file
remains and the handler returns without responding or closing. -/
def sendBody (fs : Fs) (fname : List Nat) (L : Nat) (net : NetIn)
    (fcaps scaps : List Nat) : SessionRes :=
  let r := recvLoopAux L L 0 net fcaps
  let fs' := (fname, r.data) :: fs
  if r.ok then
    let s := sendC scaps okBytes
    if s.1.length = 3 then ⟨s.1, fs', true⟩ else ⟨s.1, fs', false⟩
  else ⟨[], fs', false⟩

/-- Result of the GET body-send loop. -/
structure GetRes where
  iters : List IterRec
  sent : Nat
  out : List Nat
  scaps : List Nat
deriving DecidableEq

/-- The GET send loop: reads `min remaining 4096` bytes from the file (a
regular-file `read` delivers everything still available up to the request),
breaks on EOF, sends the chunk with a single `send` call and breaks on a short
send, with the short prefix already on the wire. Entered with
`fuel = remaining`. -/
def getLoopAux : Nat → Nat → Nat → List Nat → Nat → List Nat → GetRes
  | 0, _, sent, _, _, scaps => ⟨[], sent, [], scaps⟩
  | fuel + 1, rem, sent, file, pos, scaps =>
    if rem = 0 then ⟨[], sent, [], scaps⟩
    else
      let toRead := min rem 4096
      let nread := min toRead (file.length - pos)
      if nread = 0 then ⟨[⟨rem, sent, toRead, 0⟩], sent, [], scaps⟩
      else
        let chunk := (file.drop pos).take nread
        let s := sendC scaps chunk
        if s.1.length = nread then
          let g := getLoopAux fuel (rem - nread) (sent + nread) file (pos + nread) s.2
          ⟨⟨rem, sent, toRead, nread⟩ :: g.iters, g.sent, chunk ++ g.out, g.scaps⟩
        else
          ⟨[⟨rem, sent, toRead, s.1.length⟩], sent, s.1, s.2⟩

/-- The GET branch after the filename is known: a failed `open` answers with
the literal `"ERROR: File not found\n"` and returns (no close); otherwise the
`fstat` size (a `uint32`, hence `% 2^32`) is sent as a 4-byte big-endian
header followed by the body loop, and the connection is shut down and closed
(the native variant first waits, tolerantly, for a client acknowledgment). -/
def getBody (fs : Fs) (fname : List Nat) (scaps : List Nat) : SessionRes :=
  match lookupFs fs fname with
  | none =>
    let s := sendC scaps errNotFound
    ⟨s.1, fs, false⟩
  | some content =>
    let L := content.length % 4294967296
    let h := sendC scaps (be32enc L)
    if h.1.length = 4 then
      let g := getLoopAux L L 0 content 0 h.2
      ⟨h.1 ++ g.out, fs, true⟩
    else ⟨h.1, fs, false⟩

/-- Dispatch on the parsed command line, wasm variant
(`src/wasm_programs/image_server.c`): SEND trims the filename's trailing
whitespace, GET uses the raw token (no trim), an unknown verb answers the
error line and then shuts down and closes. -/
def dispatchW (fs : Fs) (line : List Nat) (net : NetIn)
    (fcaps scaps : List Nat) : SessionRes :=
  let cmd := tok1 line
  if cmd = [] then ⟨[], fs, false⟩
  else if cmd = SENDtok then
    match tok2 line with
    | none => ⟨[], fs, false⟩
    | some fn0 =>
      match readSize net with
      | none => ⟨[], fs, false⟩
      | some (L, net') => sendBody fs (trimEndW fn0) L net' fcaps scaps
  else if cmd = GETtok then
    match tok2 line with
    | none => ⟨[], fs, false⟩
    | some fn0 => getBody fs fn0 scaps
  else
    let s := sendC scaps errUnknown
    ⟨s.1, fs, true⟩

/-- Dispatch on the parsed command line, native variant
(`src/test/native_image_server.c`): both SEND and GET trim the filename
(trailing then leading whitespace); the unknown-verb branch sends the error
line and falls out of `handle_client` without closing the client socket. -/
def dispatchN (fs : Fs) (line : List Nat) (net : NetIn)
    (fcaps scaps : List Nat) : SessionRes :=
  let cmd := tok1 line
  if cmd = [] then ⟨[], fs, false⟩
  else if cmd = SENDtok then
    match tok2 line with
    | none => ⟨[], fs, false⟩
    | some fn0 =>
      match readSize net with
      | none => ⟨[], fs, false⟩
      | some (L, net') => sendBody fs (trimN fn0) L net' fcaps scaps
  else if cmd = GETtok then
    match tok2 line with
    | none => ⟨[], fs, false⟩
    | some fn0 => getBody fs (trimN fn0) scaps
  else
    let s := sendC scaps errUnknown
    ⟨s.1, fs, false⟩

/-- One full `handle_client` session of the wasm server. -/
def handleClientW (fs : Fs) (net : NetIn) (fcaps scaps : List Nat) : SessionRes :=
  match readLine net with
  | none => ⟨[], fs, false⟩
  | some (line, net') => dispatchW fs line net' fcaps scaps

/-- One full `handle_client` session of the native server. -/
def handleClientN (fs : Fs) (net : NetIn) (fcaps scaps : List Nat) : SessionRes :=
  match readLine net with
  | none => ⟨[], fs, false⟩
  | some (line, net') => dispatchN fs line net' fcaps scaps

/-! ### General lemmas about the copy loops -/

theorem recvC_fst_le (net : NetIn) (n : Nat) : (recvC net n).1 ≤ n := by
  simp only [recvC]
  cases net.caps <;> simp

theorem recvC_fst_le_len (net : NetIn) (n : Nat) :
    (recvC net n).1 ≤ net.stream.length := by
  simp only [recvC]
  cases net.caps <;> simp

theorem recvC_chunk_len (net : NetIn) (n : Nat) :
    (recvC net n).2.1.length = (recvC net n).1 := by
  have h := recvC_fst_le_len net n
  simp only [recvC] at h ⊢
  cases net.caps <;> simp_all

theorem recvLoop_iters_inv : ∀ (fuel rem moved : Nat) (net : NetIn) (fcaps : List Nat),
    ∀ it ∈ (recvLoopAux fuel rem moved net fcaps).iters,
      it.moved + it.rem = moved + rem ∧ it.toRead = min it.rem 4096 ∧
      it.moved + it.got ≤ moved + rem
  | 0, rem, moved, net, fcaps => by simp [recvLoopAux]
  | fuel + 1, rem, moved, net, fcaps => by
    intro it hit
    by_cases h0 : rem = 0
    · simp [recvLoopAux, h0] at hit
    · have hgle : (recvC net (min rem 4096)).1 ≤ min rem 4096 := recvC_fst_le _ _
      simp only [recvLoopAux, if_neg h0] at hit
      by_cases hg : (recvC net (min rem 4096)).1 = 0
      · simp only [hg, if_pos rfl] at hit
        simp at hit
        subst hit
        dsimp only
        refine ⟨by omega, rfl, by omega⟩
      · simp only [if_neg hg] at hit
        split at hit
        · rcases List.mem_cons.1 hit with h | h
          · subst h
            dsimp only
            refine ⟨by omega, rfl, by omega⟩
          · have := recvLoop_iters_inv fuel (rem - (recvC net (min rem 4096)).1)
              (moved + (recvC net (min rem 4096)).1) _ _ it h
            refine ⟨by omega, this.2.1, by omega⟩
        · simp at hit
          subst hit
          dsimp only
          refine ⟨by omega, rfl, by omega⟩


theorem sendC_fst_len_le (scaps payload : List Nat) :
    (sendC scaps payload).1.length ≤ payload.length := by
  cases scaps <;> simp [sendC]

theorem recvLoop_moved_le : ∀ (fuel rem moved : Nat) (net : NetIn) (fcaps : List Nat),
    (recvLoopAux fuel rem moved net fcaps).moved ≤ moved + rem
  | 0, rem, moved, net, fcaps => by simp [recvLoopAux]
  | fuel + 1, rem, moved, net, fcaps => by
    by_cases h0 : rem = 0
    · simp [recvLoopAux, h0]
    · have hgle : (recvC net (min rem 4096)).1 ≤ min rem 4096 := recvC_fst_le _ _
      simp only [recvLoopAux, if_neg h0]
      by_cases hg : (recvC net (min rem 4096)).1 = 0
      · simp [hg]
      · simp only [if_neg hg]
        split
        · have := recvLoop_moved_le fuel (rem - (recvC net (min rem 4096)).1)
            (moved + (recvC net (min rem 4096)).1) (recvC net (min rem 4096)).2.2
            (sendC fcaps (recvC net (min rem 4096)).2.1).2
          dsimp only
          omega
        · dsimp only
          omega

theorem recvLoop_data_len : ∀ (fuel rem moved : Nat) (net : NetIn) (fcaps : List Nat),
    rem ≤ fuel →
    ((recvLoopAux fuel rem moved net fcaps).ok = true →
      (recvLoopAux fuel rem moved net fcaps).data.length = rem) ∧
    ((recvLoopAux fuel rem moved net fcaps).ok = false →
      (recvLoopAux fuel rem moved net fcaps).data.length < rem)
  | 0, rem, moved, net, fcaps => by
    intro h
    have : rem = 0 := by omega
    simp [recvLoopAux, this]
  | fuel + 1, rem, moved, net, fcaps => by
    intro h
    by_cases h0 : rem = 0
    · simp [recvLoopAux, h0]
    · have hgle : (recvC net (min rem 4096)).1 ≤ min rem 4096 := recvC_fst_le _ _
      have hchunk := recvC_chunk_len net (min rem 4096)
      simp only [recvLoopAux, if_neg h0]
      by_cases hg : (recvC net (min rem 4096)).1 = 0
      · simp only [hg, if_pos rfl]
        constructor
        · intro hfalse; simp at hfalse
        · intro _
          simpa using Nat.pos_of_ne_zero h0
      · simp only [if_neg hg]
        split
        next hw =>
          have ih := recvLoop_data_len fuel (rem - (recvC net (min rem 4096)).1)
            (moved + (recvC net (min rem 4096)).1) (recvC net (min rem 4096)).2.2
            (sendC fcaps (recvC net (min rem 4096)).2.1).2 (by omega)
          dsimp only
          constructor
          · intro hok
            simp only [List.length_append, hchunk]
            have := ih.1 hok
            omega
          · intro hok
            simp only [List.length_append, hchunk]
            have := ih.2 hok
            omega
        next hw =>
          dsimp only
          constructor
          · intro hfalse; cases hfalse
          · intro _
            have hle := sendC_fst_len_le fcaps (recvC net (min rem 4096)).2.1
            rw [hchunk] at hle
            -- short write: length < got
            have hne : (sendC fcaps (recvC net (min rem 4096)).2.1).1.length ≠
                (recvC net (min rem 4096)).1 := hw
            omega


theorem recvC_snd_snd (net : NetIn) (n : Nat) :
    (recvC net n).2.2 = ⟨net.stream.drop ((recvC net n).1), net.caps.tail⟩ := by
  simp [recvC]

theorem sendC_nil (payload : List Nat) : sendC [] payload = (payload, []) := rfl

theorem recvLoop_full : ∀ (fuel rem moved : Nat) (s : List Nat),
    rem ≤ fuel → rem ≤ s.length →
    (recvLoopAux fuel rem moved ⟨s, []⟩ []).ok = true ∧
    (recvLoopAux fuel rem moved ⟨s, []⟩ []).moved = moved + rem ∧
    (recvLoopAux fuel rem moved ⟨s, []⟩ []).iters.length = (rem + 4095) / 4096
  | 0, rem, moved, s => by
    intro h _
    have : rem = 0 := by omega
    subst this
    simp [recvLoopAux]
  | fuel + 1, rem, moved, s => by
    intro hf hs
    by_cases h0 : rem = 0
    · subst h0; simp [recvLoopAux]
    · have hgot : (recvC ⟨s, []⟩ (min rem 4096)).1 = min rem 4096 := by
        simp only [recvC]
        simp
        omega
      have hchunk := recvC_chunk_len ⟨s, []⟩ (min rem 4096)
      have hg : ¬((recvC ⟨s, []⟩ (min rem 4096)).1 = 0) := by omega
      have hw : (sendC [] (recvC ⟨s, []⟩ (min rem 4096)).2.1).1.length =
          (recvC ⟨s, []⟩ (min rem 4096)).1 := by
        simp [sendC, hchunk]
      simp only [recvLoopAux, if_neg h0, if_neg hg, if_pos hw]
      have hnet2 : (recvC ⟨s, []⟩ (min rem 4096)).2.2 = ⟨s.drop (min rem 4096), []⟩ := by
        rw [recvC_snd_snd, hgot]
        rfl
      have hcap2 : (sendC [] (recvC ⟨s, []⟩ (min rem 4096)).2.1).2 = ([] : List Nat) := by
        simp [sendC]
      rw [hgot, hnet2, hcap2]
      have ih := recvLoop_full fuel (rem - min rem 4096) (moved + min rem 4096)
        (s.drop (min rem 4096)) (by omega) (by simp; omega)
      refine ⟨ih.1, ?_, ?_⟩
      · dsimp only
        omega
      · dsimp only
        simp only [List.length_cons, ih.2.2]
        omega

theorem getLoop_iters_inv : ∀ (fuel rem sent : Nat) (file : List Nat) (pos : Nat)
    (scaps : List Nat),
    ∀ it ∈ (getLoopAux fuel rem sent file pos scaps).iters,
      it.moved + it.rem = sent + rem ∧ it.toRead = min it.rem 4096 ∧
      it.moved + it.got ≤ sent + rem
  | 0, rem, sent, file, pos, scaps => by simp [getLoopAux]
  | fuel + 1, rem, sent, file, pos, scaps => by
    intro it hit
    by_cases h0 : rem = 0
    · simp [getLoopAux, h0] at hit
    · simp only [getLoopAux, if_neg h0] at hit
      by_cases hn : min (min rem 4096) (file.length - pos) = 0
      · simp only [hn, if_pos rfl] at hit
        simp at hit
        subst hit
        dsimp only
        refine ⟨by omega, rfl, by omega⟩
      · simp only [if_neg hn] at hit
        have hchl : ((file.drop pos).take (min (min rem 4096) (file.length - pos))).length =
            min (min rem 4096) (file.length - pos) := by
          rw [List.length_take, List.length_drop]
          omega
        have hsle := sendC_fst_len_le scaps
          ((file.drop pos).take (min (min rem 4096) (file.length - pos)))
        rw [hchl] at hsle
        split at hit
        · rcases List.mem_cons.1 hit with h | h
          · subst h
            dsimp only
            refine ⟨by omega, rfl, by omega⟩
          · have := getLoop_iters_inv fuel (rem - min (min rem 4096) (file.length - pos))
              (sent + min (min rem 4096) (file.length - pos)) file
              (pos + min (min rem 4096) (file.length - pos)) _ it h
            refine ⟨by omega, this.2.1, by omega⟩
        · rw [List.mem_singleton] at hit
          subst hit
          dsimp only
          refine ⟨by omega, rfl, by omega⟩

theorem getLoop_out_le : ∀ (fuel rem sent : Nat) (file : List Nat) (pos : Nat)
    (scaps : List Nat),
    (getLoopAux fuel rem sent file pos scaps).out.length ≤ rem
  | 0, rem, sent, file, pos, scaps => by simp [getLoopAux]
  | fuel + 1, rem, sent, file, pos, scaps => by
    by_cases h0 : rem = 0
    · simp [getLoopAux, h0]
    · simp only [getLoopAux, if_neg h0]
      by_cases hn : min (min rem 4096) (file.length - pos) = 0
      · simp [hn]
      · simp only [if_neg hn]
        have hchl : ((file.drop pos).take (min (min rem 4096) (file.length - pos))).length =
            min (min rem 4096) (file.length - pos) := by
          rw [List.length_take, List.length_drop]
          omega
        have hsle := sendC_fst_len_le scaps
          ((file.drop pos).take (min (min rem 4096) (file.length - pos)))
        rw [hchl] at hsle
        split
        · have ih := getLoop_out_le fuel (rem - min (min rem 4096) (file.length - pos))
            (sent + min (min rem 4096) (file.length - pos)) file
            (pos + min (min rem 4096) (file.length - pos))
            (sendC scaps ((file.drop pos).take
              (min (min rem 4096) (file.length - pos)))).2
          dsimp only
          simp only [List.length_append]
          omega
        · dsimp only
          omega

theorem getLoop_full : ∀ (fuel rem sent : Nat) (file : List Nat) (pos : Nat),
    rem ≤ fuel → pos + rem ≤ file.length →
    (getLoopAux fuel rem sent file pos []).sent = sent + rem ∧
    (getLoopAux fuel rem sent file pos []).iters.length = (rem + 4095) / 4096 ∧
    (getLoopAux fuel rem sent file pos []).out = (file.drop pos).take rem
  | 0, rem, sent, file, pos => by
    intro h _
    have : rem = 0 := by omega
    subst this
    simp [getLoopAux]
  | fuel + 1, rem, sent, file, pos => by
    intro hf hp
    by_cases h0 : rem = 0
    · subst h0; simp [getLoopAux]
    · have hnr : min (min rem 4096) (file.length - pos) = min rem 4096 := by omega
      have hn : ¬(min (min rem 4096) (file.length - pos) = 0) := by omega
      have hchl : ((file.drop pos).take (min (min rem 4096) (file.length - pos))).length =
          min (min rem 4096) (file.length - pos) := by
        rw [List.length_take, List.length_drop]
        omega
      have hw : (sendC [] ((file.drop pos).take
          (min (min rem 4096) (file.length - pos)))).1.length =
          min (min rem 4096) (file.length - pos) := by
        rw [sendC_nil]
        exact hchl
      simp only [getLoopAux, if_neg h0, if_neg hn, if_pos hw]
      have hcap2 : (sendC [] ((file.drop pos).take
          (min (min rem 4096) (file.length - pos)))).2 = ([] : List Nat) := rfl
      rw [hcap2]
      have ih := getLoop_full fuel (rem - min (min rem 4096) (file.length - pos))
        (sent + min (min rem 4096) (file.length - pos)) file
        (pos + min (min rem 4096) (file.length - pos)) (by omega) (by omega)
      refine ⟨?_, ?_, ?_⟩
      · dsimp only
        omega
      · dsimp only
        simp only [List.length_cons, ih.2.1]
        omega
      · dsimp only
        rw [ih.2.2, hnr]
        have hk : rem = min rem 4096 + (rem - min rem 4096) := by omega
        conv_rhs => rw [hk, List.take_add]
        rw [List.drop_drop, Nat.add_comm pos (min rem 4096)]

/-! ### Claim theorems -/

/-- Helper for C4: does the head transport cap (if any) allow `n` bytes? -/
def capAtLeast (caps : List Nat) (n : Nat) : Bool :=
  match caps with
  | [] => true
  | c :: _ => n ≤ c

/-- Lookup after the SEND branch's create/write finds the just-written data. -/
theorem lookupFs_cons_self (fs : Fs) (k v : List Nat) :
    lookupFs ((k, v) :: fs) k = some v := by
  simp [lookupFs]

/-- C1 (failing run): on the wasm server, `SEND foo.bin` of the 5 bytes
`hello` stores the file under the trimmed name `foo.bin`, but a subsequent
`GET foo.bin` parses the untrimmed token `foo.bin\n`, whose open fails, so the
server answers `ERROR: File not found\n` instead of the stored bytes; the
native variant, which trims the GET filename, returns the header `00 00 00 05`
followed by `hello`. -/
theorem c1_roundtrip_wasm_get_untrimmed :
    (handleClientW [] ⟨[83, 69, 78, 68, 32, 102, 111, 111, 46, 98, 105, 110, 10,
        0, 0, 0, 5, 104, 101, 108, 108, 111], []⟩ [] []).fs
      = [([102, 111, 111, 46, 98, 105, 110], [104, 101, 108, 108, 111])] ∧
    (handleClientW [([102, 111, 111, 46, 98, 105, 110], [104, 101, 108, 108, 111])]
        ⟨[71, 69, 84, 32, 102, 111, 111, 46, 98, 105, 110, 10], []⟩ [] []).out
      = errNotFound ∧
    (handleClientN [([102, 111, 111, 46, 98, 105, 110], [104, 101, 108, 108, 111])]
        ⟨[71, 69, 84, 32, 102, 111, 111, 46, 98, 105, 110, 10], []⟩ [] []).out
      = [0, 0, 0, 5, 104, 101, 108, 108, 111] := by decide

/-- C2 (failing run): a `GET nosuch.bin` against an empty filesystem makes both
servers answer the 22 ASCII bytes `ERROR: File not found\n` — not the all-zero
4-byte header — and return without closing the connection. -/
theorem c2_get_missing_sends_error_line :
    (handleClientW [] ⟨[71, 69, 84, 32, 110, 111, 115, 117, 99, 104, 46, 98,
        105, 110, 10], []⟩ [] []) = ⟨errNotFound, [], false⟩ ∧
    (handleClientN [] ⟨[71, 69, 84, 32, 110, 111, 115, 117, 99, 104, 46, 98,
        105, 110, 10], []⟩ [] []) = ⟨errNotFound, [], false⟩ ∧
    errNotFound.take 4 ≠ [0, 0, 0, 0] ∧ errNotFound.length = 22 := by decide

/-- With no cap on the acknowledgment send, `sendBody` either acknowledges a
completed transfer or answers nothing after a failed one. -/
theorem sendBody_cases (fs : Fs) (fname : List Nat) (L : Nat) (net : NetIn)
    (fcaps : List Nat) :
    sendBody fs fname L net fcaps [] =
      if (recvLoopAux L L 0 net fcaps).ok
      then ⟨okBytes, (fname, (recvLoopAux L L 0 net fcaps).data) :: fs, true⟩
      else ⟨[], (fname, (recvLoopAux L L 0 net fcaps).data) :: fs, false⟩ := by
  unfold sendBody
  rw [sendC_nil]
  by_cases h : (recvLoopAux L L 0 net fcaps).ok = true
  · rw [if_pos h, if_pos h, if_pos (show (okBytes, ([] : List Nat)).1.length = 3 from rfl)]
  · rw [if_neg h, if_neg h]

/-- C3: in a SEND session the `OK\\n` acknowledgment is written if and only if
the destination file received exactly the declared `L` bytes; a session that
falls short writes nothing, and the partial file is strictly shorter than
`L`. -/
theorem c3_send_ack_iff_complete (fs : Fs) (fname : List Nat) (L : Nat)
    (net : NetIn) (fcaps : List Nat) :
    ((sendBody fs fname L net fcaps []).out = okBytes ∨
      (sendBody fs fname L net fcaps []).out = []) ∧
    ((sendBody fs fname L net fcaps []).out = okBytes ↔
      ∃ d, lookupFs (sendBody fs fname L net fcaps []).fs fname = some d ∧
        d.length = L) := by
  have hd := recvLoop_data_len L L 0 net fcaps (le_refl L)
  cases hok : (recvLoopAux L L 0 net fcaps).ok with
  | true =>
    rw [sendBody_cases, if_pos hok]
    refine ⟨Or.inl rfl, ?_, ?_⟩
    · intro _
      exact ⟨_, lookupFs_cons_self _ _ _, hd.1 hok⟩
    · intro _
      rfl
  | false =>
    have hne : ¬((recvLoopAux L L 0 net fcaps).ok = true) := by simp [hok]
    rw [sendBody_cases, if_neg hne]
    refine ⟨Or.inr rfl, ?_, ?_⟩
    · intro h
      simp [okBytes] at h
    · rintro ⟨d, hdl, hlen⟩
      rw [lookupFs_cons_self] at hdl
      injection hdl with h
      subst h
      have := hd.2 hok
      omega

/-- C4 (counterexample): a stream holding all 4 header bytes but delivering
only 2 on the first read makes the size read fail (`none`) — the code does not
retry short reads — even though the claim says it should succeed with the
big-endian value 5. -/
theorem c4_counterexample_split_header :
    readSize ⟨[0, 0, 0, 5], [2, 2]⟩ = none ∧ be32dec [0, 0, 0, 5] = 5 := by
  decide

/-- C4 (amended): the length read is a single `recv` of 4 bytes: it succeeds
exactly when that one call can deliver 4 bytes (at least 4 bytes in the stream
and no smaller transport cap on this call), in which case it yields the
big-endian value of the first 4 stream bytes; any short delivery aborts. -/
theorem c4_size_read_single_call (s caps : List Nat) :
    ((readSize ⟨s, caps⟩).isSome ↔ 4 ≤ s.length ∧ capAtLeast caps 4 = true) ∧
    (4 ≤ s.length → capAtLeast caps 4 = true →
      readSize ⟨s, caps⟩ = some (be32dec (s.take 4), ⟨s.drop 4, caps.tail⟩)) := by
  cases caps with
  | nil =>
    simp only [readSize, recvC, capAtLeast]
    constructor
    · simp
    · intro hs _
      have h4 : min 4 s.length = 4 := by omega
      simp [h4]
  | cons c t =>
    simp only [readSize, recvC, capAtLeast]
    constructor
    · simp
      omega
    · intro hs hc
      simp only [decide_eq_true_eq] at hc
      have h4 : min (min 4 c) s.length = 4 := by omega
      simp [h4]

theorem c4_size_read_single_call_witness :
    4 ≤ [0, 0, 0, 7, 9].length ∧ capAtLeast [] 4 = true ∧
    readSize ⟨[0, 0, 0, 7, 9], []⟩
      = some (be32dec ([0, 0, 0, 7, 9].take 4), ⟨[0, 0, 0, 7, 9].drop 4, List.tail []⟩) :=
  ⟨by decide, by decide,
    (c4_size_read_single_call [0, 0, 0, 7, 9] []).2 (by decide) (by decide)⟩

/-- C5 (counterexample): with 5 bytes declared and fully delivered, a file
write schedule that accepts 3 bytes now and 2 later would let a retrying
implementation finish, but the loop fails immediately after the single short
write, leaving only the 3-byte prefix in the file. -/
theorem c5_counterexample_short_write_aborts :
    (recvLoopAux 5 5 0 ⟨[1, 2, 3, 4, 5], []⟩ [3, 2]).ok = false ∧
    (recvLoopAux 5 5 0 ⟨[1, 2, 3, 4, 5], []⟩ [3, 2]).data = [1, 2, 3] := by
  decide

/-- C5 (amended): each chunk is flushed by exactly one write call; if that
call accepts fewer bytes than the chunk, the transfer fails on the spot with
counters not advanced and only the accepted prefix written — the remainder is
never retried. -/
theorem c5_single_write_no_retry (L : Nat) (stream : List Nat) (f : Nat)
    (fcaps' : List Nat) (h0 : 0 < L) (hf : f < min (min L 4096) stream.length) :
    (recvLoopAux L L 0 ⟨stream, []⟩ (f :: fcaps')).ok = false ∧
    (recvLoopAux L L 0 ⟨stream, []⟩ (f :: fcaps')).moved = 0 ∧
    (recvLoopAux L L 0 ⟨stream, []⟩ (f :: fcaps')).data = stream.take f := by
  obtain ⟨k, rfl⟩ : ∃ k, L = k + 1 := ⟨L - 1, by omega⟩
  have hgot : (recvC ⟨stream, []⟩ (min (k + 1) 4096)).1
      = min (min (k + 1) 4096) stream.length := by
    simp [recvC]
  have hchunk := recvC_chunk_len ⟨stream, []⟩ (min (k + 1) 4096)
  have hg : ¬((recvC ⟨stream, []⟩ (min (k + 1) 4096)).1 = 0) := by omega
  have hwlen : (sendC (f :: fcaps') (recvC ⟨stream, []⟩ (min (k + 1) 4096)).2.1).1.length
      = f := by
    simp only [sendC, List.length_take]
    omega
  have hwne : ¬((sendC (f :: fcaps') (recvC ⟨stream, []⟩ (min (k + 1) 4096)).2.1).1.length
      = (recvC ⟨stream, []⟩ (min (k + 1) 4096)).1) := by omega
  simp only [recvLoopAux, if_neg (by omega : ¬(k + 1 = 0)), if_neg hg, if_neg hwne]
  refine ⟨by trivial, by trivial, ?_⟩
  show (sendC (f :: fcaps') (recvC ⟨stream, []⟩ (min (k + 1) 4096)).2.1).1
      = stream.take f
  simp only [sendC, recvC]
  rw [List.take_take]
  congr 1
  omega

theorem c5_single_write_no_retry_witness :
    0 < 2 ∧ 1 < min (min 2 4096) [9, 8].length ∧
    (recvLoopAux 2 2 0 ⟨[9, 8], []⟩ [1]).ok = false ∧
    (recvLoopAux 2 2 0 ⟨[9, 8], []⟩ [1]).moved = 0 ∧
    (recvLoopAux 2 2 0 ⟨[9, 8], []⟩ [1]).data = [9, 8].take 1 :=
  ⟨by decide, by decide,
    (c5_single_write_no_retry 2 [9, 8] 1 [] (by decide) (by decide)).1,
    (c5_single_write_no_retry 2 [9, 8] 1 [] (by decide) (by decide)).2.1,
    (c5_single_write_no_retry 2 [9, 8] 1 [] (by decide) (by decide)).2.2⟩

/-- C6: for the listed sizes, with chunk size 4096 and sources that always
deliver what is requested, both copy loops move exactly `S` bytes in exactly
`⌈S/4096⌉ = (S + 4095) / 4096` iterations, and perform no iteration at all
when `S = 0`. -/
theorem c6_copy_chunk_counts (S : Nat) (stream file : List Nat)
    (hS : S ∈ [0, 1, 4095, 4096, 4097, 10000000]) (hs : S ≤ stream.length)
    (hf : S ≤ file.length) :
    ((recvLoopAux S S 0 ⟨stream, []⟩ []).ok = true ∧
     (recvLoopAux S S 0 ⟨stream, []⟩ []).moved = S ∧
     (recvLoopAux S S 0 ⟨stream, []⟩ []).iters.length = (S + 4095) / 4096) ∧
    ((getLoopAux S S 0 file 0 []).sent = S ∧
     (getLoopAux S S 0 file 0 []).iters.length = (S + 4095) / 4096) ∧
    (S = 0 → (recvLoopAux S S 0 ⟨stream, []⟩ []).iters = [] ∧
      (getLoopAux S S 0 file 0 []).iters = []) := by
  have hr := recvLoop_full S S 0 stream (le_refl S) hs
  have hg := getLoop_full S S 0 file 0 (le_refl S) (by omega)
  refine ⟨⟨hr.1, ?_, hr.2.2⟩, ⟨?_, hg.2.1⟩, ?_⟩
  · omega
  · omega
  · rintro rfl
    exact ⟨rfl, rfl⟩

theorem c6_copy_chunk_counts_witness :
    1 ∈ [0, 1, 4095, 4096, 4097, 10000000] ∧ 1 ≤ [4].length ∧ 1 ≤ [7].length ∧
    (recvLoopAux 1 1 0 ⟨[4], []⟩ []).moved = 1 ∧
    (getLoopAux 1 1 0 [7] 0 []).iters.length = (1 + 4095) / 4096 :=
  ⟨by decide, by decide, by decide,
    (c6_copy_chunk_counts 1 [4] [7] (by decide) (by decide) (by decide)).1.2.1,
    (c6_copy_chunk_counts 1 [4] [7] (by decide) (by decide) (by decide)).2.1.2⟩

/-- C7 (failing run): on the command line `FOO bar\n` both servers write
exactly the 23 bytes `ERROR: Unknown command\n` and nothing else, but only the
wasm variant then shuts down and closes the connection; the native variant
falls out of `handle_client` without closing the client descriptor. -/
theorem c7_unknown_verb_native_no_close :
    (handleClientN [] ⟨[70, 79, 79, 32, 98, 97, 114, 10], []⟩ [] [])
      = ⟨errUnknown, [], false⟩ ∧
    (handleClientW [] ⟨[70, 79, 79, 32, 98, 97, 114, 10], []⟩ [] [])
      = ⟨errUnknown, [], true⟩ ∧
    errUnknown.length = 23 := by decide

/-- C8: in both copy loops every iteration starts with
`moved + remaining = L`, requests `min remaining 4096` bytes, and can bring
the total at most to `L`; the final totals never exceed `L`, and a GET session
never puts more body bytes on the wire than the header announced. -/
theorem c8_loop_invariant (L : Nat) (net : NetIn) (fcaps : List Nat)
    (file : List Nat) (scaps : List Nat) (fs : Fs) (fname : List Nat) :
    (∀ it ∈ (recvLoopAux L L 0 net fcaps).iters,
      it.moved + it.rem = L ∧ it.toRead = min it.rem 4096 ∧
      it.moved + it.got ≤ L) ∧
    (recvLoopAux L L 0 net fcaps).moved ≤ L ∧
    (∀ it ∈ (getLoopAux L L 0 file 0 scaps).iters,
      it.moved + it.rem = L ∧ it.toRead = min it.rem 4096 ∧
      it.moved + it.got ≤ L) ∧
    (getLoopAux L L 0 file 0 scaps).out.length ≤ L ∧
    (∀ content, lookupFs fs fname = some content →
      (getBody fs fname scaps).out.length ≤ 4 + content.length % 4294967296) := by
  refine ⟨?_, ?_, ?_, getLoop_out_le L L 0 file 0 scaps, ?_⟩
  · intro it hit
    have h := recvLoop_iters_inv L L 0 net fcaps it hit
    refine ⟨?_, h.2.1, ?_⟩
    · omega
    · omega
  · have := recvLoop_moved_le L L 0 net fcaps
    omega
  · intro it hit
    have h := getLoop_iters_inv L L 0 file 0 scaps it hit
    refine ⟨?_, h.2.1, ?_⟩
    · omega
    · omega
  · intro content hc
    simp only [getBody, hc]
    have hhl : (sendC scaps (be32enc (content.length % 4294967296))).1.length ≤ 4 := by
      have h := sendC_fst_len_le scaps (be32enc (content.length % 4294967296))
      have hb : (be32enc (content.length % 4294967296)).length = 4 := rfl
      omega
    split
    next h4 =>
      dsimp only
      rw [List.length_append]
      have hout := getLoop_out_le (content.length % 4294967296)
        (content.length % 4294967296) 0 content 0
        (sendC scaps (be32enc (content.length % 4294967296))).2
      omega
    next h4 =>
      dsimp only
      omega

theorem c8_loop_invariant_witness :
    (⟨1, 0, 1, 1⟩ : IterRec) ∈ (recvLoopAux 1 1 0 ⟨[5], []⟩ []).iters ∧
    ((⟨1, 0, 1, 1⟩ : IterRec).moved + (⟨1, 0, 1, 1⟩ : IterRec).rem = 1 ∧
     (⟨1, 0, 1, 1⟩ : IterRec).toRead = min (⟨1, 0, 1, 1⟩ : IterRec).rem 4096 ∧
     (⟨1, 0, 1, 1⟩ : IterRec).moved + (⟨1, 0, 1, 1⟩ : IterRec).got ≤ 1) :=
  ⟨by decide,
    (c8_loop_invariant 1 ⟨[5], []⟩ [] [7] [] [] []).1 ⟨1, 0, 1, 1⟩ (by decide)⟩

/-- C9: a SEND with declared length 0 is a valid, acknowledged transfer: the
copy loop runs no iteration, the destination file is created (truncated) with
zero bytes, the server replies `OK\n` and closes. -/
theorem c9_zero_length_send (fs : Fs) (fname : List Nat) (net : NetIn)
    (fcaps : List Nat) :
    (sendBody fs fname 0 net fcaps []).out = okBytes ∧
    lookupFs (sendBody fs fname 0 net fcaps []).fs fname = some [] ∧
    (sendBody fs fname 0 net fcaps []).closed = true ∧
    (recvLoopAux 0 0 0 net fcaps).iters = [] := by
  have hz : recvLoopAux 0 0 0 net fcaps = ⟨[], 0, true, [], net, fcaps⟩ := rfl
  unfold sendBody
  rw [hz, sendC_nil]
  exact ⟨rfl, lookupFs_cons_self fs fname [], rfl, rfl⟩

/-- C10 (counterexample): the command line `GET \n` contains the recognized
verb `GET` and no filename token, yet the native server does not stay silent:
strtok hands it the token `\n`, trimming empties it, the open fails and the
22-byte `ERROR: File not found\n` line is written (the wasm variant, which
does not trim, fails to open `\n` and answers likewise). -/
theorem c10_counterexample_get_space_newline :
    (handleClientN [] ⟨[71, 69, 84, 32, 10], []⟩ [] []).out = errNotFound ∧
    (handleClientW [] ⟨[71, 69, 84, 32, 10], []⟩ [] []).out = errNotFound ∧
    errNotFound ≠ [] := by decide

/-- C10 (amended): when strtok yields no token at all after the verb (the rest
of the buffer is only spaces, which on a newline-terminated line cannot
happen — the newline itself becomes the token — and so requires the 1023-byte
max-length path), both variants write zero bytes and return silently. -/
theorem c10_missing_filename_token_silent (fs : Fs) (line : List Nat)
    (net : NetIn) (fcaps scaps : List Nat)
    (hverb : tok1 line = SENDtok ∨ tok1 line = GETtok)
    (hno : tok2 line = none) :
    dispatchW fs line net fcaps scaps = ⟨[], fs, false⟩ ∧
    dispatchN fs line net fcaps scaps = ⟨[], fs, false⟩ := by
  cases hverb with
  | inl h =>
    unfold dispatchW dispatchN
    rw [h, hno]
    simp [SENDtok]
  | inr h =>
    unfold dispatchW dispatchN
    rw [h, hno]
    simp [SENDtok, GETtok]

theorem c10_missing_filename_token_silent_witness :
    (tok1 [83, 69, 78, 68, 32] = SENDtok ∨ tok1 [83, 69, 78, 68, 32] = GETtok) ∧
    tok2 [83, 69, 78, 68, 32] = none ∧
    dispatchW [] [83, 69, 78, 68, 32] ⟨[], []⟩ [] [] = ⟨[], [], false⟩ :=
  ⟨Or.inl (by decide), by decide,
    (c10_missing_filename_token_silent [] [83, 69, 78, 68, 32] ⟨[], []⟩ [] []
      (Or.inl (by decide)) (by decide)).1⟩

end ImageServer
